import Mathlib

/-!
Shallow embedding of `src/RingBuffer/MTRingBuffer.{hpp,cpp}` (class `MTRingBuffer`),
a slot-addressed circular byte buffer.

Byte regions (`mRingBuffer`, `mLastReadSlot`, caller-supplied slot buffers) are
modelled as total functions `Nat → Nat` (byte value at each index); only indices
below the region's length are meaningful.  The C++ `int` fields are modelled as
`Nat`: all arithmetic on them in the source stays non-negative and far below
`INT_MAX` for the intended sizes.  `std::memcpy`/`std::memset` become pointwise
function updates on a half-open index interval.

The two blocking operations wait on a condition variable while their guard
holds; in this sequential embedding they return `none` exactly when they would
wait (the guard holds on entry), and `some` of the updated state otherwise.
The mutex/condition-variable mechanics themselves are not modelled.
-/

namespace MTRing

/-- State of one `MTRingBuffer` object: the fields of the C++ class
(minus the mutex and the two wait conditions, which carry no data). -/
structure MTRingBuffer where
  mSlotSize : Nat
  mNumSlots : Nat
  mReadPosition : Nat
  mWritePosition : Nat
  mFullSlots : Nat
  mRingBuffer : Nat → Nat
  mLastReadSlot : Nat → Nat

/-- `mTotalSize = mSlotSize * mNumSlots` (a `const` field computed in the
initializer list; we keep it as a derived quantity). -/
def MTRingBuffer.mTotalSize (b : MTRingBuffer) : Nat :=
  b.mSlotSize * b.mNumSlots

/-- `std::memcpy(dst + pos, src, len)`: bytes `pos ≤ i < pos + len` of `dst`
are replaced by `src (i - pos)`; all other bytes are untouched. -/
def memcpyAt (dst : Nat → Nat) (pos : Nat) (src : Nat → Nat) (len : Nat) : Nat → Nat :=
  fun i => if pos ≤ i ∧ i < pos + len then src (i - pos) else dst i

/-- `std::memset(dst, v, len)`: bytes `i < len` of `dst` become `v`. -/
def memsetAt (dst : Nat → Nat) (v : Nat) (len : Nat) : Nat → Nat :=
  fun i => if i < len then v else dst i

/-- The constructor `MTRingBuffer::MTRingBuffer(SlotSize, NumSlots)`:
zeroes both regions, then sets
`mWritePosition = ((NumSlots / 2) * SlotSize) % mTotalSize` and
`mFullSlots = NumSlots / 2` (the half-full pre-seed); `mReadPosition` stays 0. -/
def MTRingBuffer.construct (SlotSize NumSlots : Nat) : MTRingBuffer :=
  { mSlotSize := SlotSize
    mNumSlots := NumSlots
    mReadPosition := 0
    mWritePosition := ((NumSlots / 2) * SlotSize) % (SlotSize * NumSlots)
    mFullSlots := NumSlots / 2
    mRingBuffer := fun _ => 0
    mLastReadSlot := fun _ => 0 }

/-- `MTRingBuffer::insertSlotBlocking`: while `mFullSlots == mNumSlots` it waits
(`none` here); otherwise it copies the slot to `mRingBuffer + mWritePosition`,
advances `mWritePosition` modulo `mTotalSize` and increments `mFullSlots`. -/
def MTRingBuffer.insertSlotBlocking (b : MTRingBuffer) (ptrToSlot : Nat → Nat) :
    Option MTRingBuffer :=
  if b.mFullSlots = b.mNumSlots then
    none
  else
    some { b with
      mRingBuffer := memcpyAt b.mRingBuffer b.mWritePosition ptrToSlot b.mSlotSize
      mWritePosition := (b.mWritePosition + b.mSlotSize) % b.mTotalSize
      mFullSlots := b.mFullSlots + 1 }

/-- `MTRingBuffer::readSlotBlocking`: while `mFullSlots == 0` it waits (`none`
here); otherwise it copies the slot at `mRingBuffer + mReadPosition` into the
caller's buffer and into `mLastReadSlot`, advances `mReadPosition` modulo
`mTotalSize` and decrements `mFullSlots`.  Returns the caller's buffer after
the copy, paired with the new state. -/
def MTRingBuffer.readSlotBlocking (b : MTRingBuffer) (ptrToReadSlot : Nat → Nat) :
    Option ((Nat → Nat) × MTRingBuffer) :=
  if b.mFullSlots = 0 then
    none
  else
    some (memcpyAt ptrToReadSlot 0 (fun i => b.mRingBuffer (b.mReadPosition + i)) b.mSlotSize,
      { b with
        mLastReadSlot :=
          memcpyAt b.mLastReadSlot 0 (fun i => b.mRingBuffer (b.mReadPosition + i)) b.mSlotSize
        mReadPosition := (b.mReadPosition + b.mSlotSize) % b.mTotalSize
        mFullSlots := b.mFullSlots - 1 })

/-- `MTRingBuffer::overflowReset`: advances `mReadPosition` by
`(mNumSlots/2) * mSlotSize` modulo `mTotalSize` and subtracts `mNumSlots/2`
from `mFullSlots`.  (Only ever invoked with `mFullSlots == mNumSlots`, where
the `Nat` subtraction agrees with the C++ `int` subtraction.) -/
def MTRingBuffer.overflowReset (b : MTRingBuffer) : MTRingBuffer :=
  { b with
    mReadPosition := (b.mReadPosition + (b.mNumSlots / 2) * b.mSlotSize) % b.mTotalSize
    mFullSlots := b.mFullSlots - b.mNumSlots / 2 }

/-- `MTRingBuffer::underrunReset`: zeroes the whole `mRingBuffer` region. -/
def MTRingBuffer.underrunReset (b : MTRingBuffer) : MTRingBuffer :=
  { b with mRingBuffer := memsetAt b.mRingBuffer 0 b.mTotalSize }

/-- `MTRingBuffer::setUnderrunReadSlot`: zeroes `mSlotSize` bytes of the
caller's read buffer. -/
def MTRingBuffer.setUnderrunReadSlot (b : MTRingBuffer) (ptrToReadSlot : Nat → Nat) :
    Nat → Nat :=
  memsetAt ptrToReadSlot 0 b.mSlotSize

/-- `MTRingBuffer::insertSlotNonBlocking`: on a full buffer, calls
`overflowReset` and returns without writing; otherwise identical to the
blocking insert body. -/
def MTRingBuffer.insertSlotNonBlocking (b : MTRingBuffer) (ptrToSlot : Nat → Nat) :
    MTRingBuffer :=
  if b.mFullSlots = b.mNumSlots then
    b.overflowReset
  else
    { b with
      mRingBuffer := memcpyAt b.mRingBuffer b.mWritePosition ptrToSlot b.mSlotSize
      mWritePosition := (b.mWritePosition + b.mSlotSize) % b.mTotalSize
      mFullSlots := b.mFullSlots + 1 }

/-- `MTRingBuffer::readSlotNonBlocking`: on an empty buffer, fills the caller's
buffer via `setUnderrunReadSlot`, calls `underrunReset` and returns; otherwise
identical to the blocking read body. -/
def MTRingBuffer.readSlotNonBlocking (b : MTRingBuffer) (ptrToReadSlot : Nat → Nat) :
    (Nat → Nat) × MTRingBuffer :=
  if b.mFullSlots = 0 then
    (b.setUnderrunReadSlot ptrToReadSlot, b.underrunReset)
  else
    (memcpyAt ptrToReadSlot 0 (fun i => b.mRingBuffer (b.mReadPosition + i)) b.mSlotSize,
      { b with
        mLastReadSlot :=
          memcpyAt b.mLastReadSlot 0 (fun i => b.mRingBuffer (b.mReadPosition + i)) b.mSlotSize
        mReadPosition := (b.mReadPosition + b.mSlotSize) % b.mTotalSize
        mFullSlots := b.mFullSlots - 1 })

/-- Iterated blocking insert of a list of slots (front of the list first). -/
def insertList (b : MTRingBuffer) : List (Nat → Nat) → Option MTRingBuffer
  | [] => some b
  | sl :: rest => (b.insertSlotBlocking sl).bind (fun b1 => insertList b1 rest)

/-- `k` iterated blocking reads, each into a fresh zero caller buffer;
collects the returned slots in order. -/
def readN (b : MTRingBuffer) : Nat → Option (List (Nat → Nat) × MTRingBuffer)
  | 0 => some ([], b)
  | k + 1 =>
    (b.readSlotBlocking (fun _ => 0)).bind fun p =>
      (readN p.2 k).map fun q => (p.1 :: q.1, q.2)

/-- Byte offset of the `j`-th oldest occupied slot, counting from
`mReadPosition` and wrapping modulo `mTotalSize`. -/
def slotPos (b : MTRingBuffer) (j : Nat) : Nat :=
  (b.mReadPosition + j * b.mSlotSize) % b.mTotalSize

/-- A concrete empty-buffer state with non-zero positions (`slot_size = 2`,
`num_slots = 4`, both positions at byte 4), used by concrete instantiations. -/
def emptyAt4 : MTRingBuffer :=
  ⟨2, 4, 4, 4, 0, fun _ => 9, fun _ => 7⟩

/-- The state invariant: positive sizes, both positions in `[0, mTotalSize)`
and multiples of `mSlotSize`, `mFullSlots ≤ mNumSlots`, and
`mWritePosition - mReadPosition ≡ mFullSlots * mSlotSize (mod mTotalSize)`
(stated subtraction-free as
`mReadPosition + mFullSlots * mSlotSize ≡ mWritePosition`). -/
abbrev Invariant (b : MTRingBuffer) : Prop :=
  0 < b.mSlotSize ∧ 0 < b.mNumSlots ∧
  b.mReadPosition < b.mTotalSize ∧ b.mWritePosition < b.mTotalSize ∧
  b.mSlotSize ∣ b.mReadPosition ∧ b.mSlotSize ∣ b.mWritePosition ∧
  b.mFullSlots ≤ b.mNumSlots ∧
  (b.mReadPosition + b.mFullSlots * b.mSlotSize) % b.mTotalSize =
    b.mWritePosition % b.mTotalSize

/-! ### Invariant preservation helpers -/

lemma dvd_mod_of_dvd_of_dvd {s a m : Nat} (h1 : s ∣ a) (h2 : s ∣ m) : s ∣ a % m :=
  (Nat.dvd_mod_iff h2).mpr h1

lemma invariant_construct {s n : Nat} (hs : 0 < s) (hn : 0 < n) :
    Invariant (MTRingBuffer.construct s n) := by
  have htot : 0 < s * n := Nat.mul_pos hs hn
  refine ⟨hs, hn, ?_, ?_, ?_, ?_, ?_, ?_⟩
  · simpa [MTRingBuffer.construct, MTRingBuffer.mTotalSize] using htot
  · simpa [MTRingBuffer.construct, MTRingBuffer.mTotalSize] using Nat.mod_lt _ htot
  · simp [MTRingBuffer.construct]
  · exact dvd_mod_of_dvd_of_dvd (Dvd.intro_left _ rfl) (Dvd.intro _ rfl)
  · simpa [MTRingBuffer.construct] using Nat.div_le_self n 2
  · simp [MTRingBuffer.construct, MTRingBuffer.mTotalSize, Nat.mod_mod_of_dvd]

/-- The common body of both inserts preserves the invariant when the buffer
is not full. -/
lemma invariant_insert_body {b : MTRingBuffer} (h : Invariant b)
    (hne : b.mFullSlots ≠ b.mNumSlots) (sl : Nat → Nat) :
    Invariant { b with
      mRingBuffer := memcpyAt b.mRingBuffer b.mWritePosition sl b.mSlotSize
      mWritePosition := (b.mWritePosition + b.mSlotSize) % b.mTotalSize
      mFullSlots := b.mFullSlots + 1 } := by
  obtain ⟨hs, hn, hr, hw, hdr, hdw, hf, hc⟩ := h
  have htot : 0 < b.mTotalSize := Nat.mul_pos hs hn
  have hsd : b.mSlotSize ∣ b.mTotalSize := Dvd.intro _ rfl
  refine ⟨hs, hn, hr, Nat.mod_lt _ htot, hdr, dvd_mod_of_dvd_of_dvd (Dvd.dvd.add hdw dvd_rfl) hsd,
    Nat.lt_of_le_of_ne hf hne, ?_⟩
  show (b.mReadPosition + (b.mFullSlots + 1) * b.mSlotSize) % b.mTotalSize =
    (b.mWritePosition + b.mSlotSize) % b.mTotalSize % b.mTotalSize
  have harg : b.mReadPosition + (b.mFullSlots + 1) * b.mSlotSize =
      b.mReadPosition + b.mFullSlots * b.mSlotSize + b.mSlotSize := by ring
  rw [Nat.mod_mod_of_dvd _ dvd_rfl, harg, ← Nat.mod_add_mod, hc, Nat.mod_add_mod]

/-- The common body of both reads preserves the invariant when the buffer
is not empty. -/
lemma invariant_read_body {b : MTRingBuffer} (h : Invariant b)
    (hne : b.mFullSlots ≠ 0) :
    Invariant { b with
      mLastReadSlot :=
        memcpyAt b.mLastReadSlot 0 (fun i => b.mRingBuffer (b.mReadPosition + i)) b.mSlotSize
      mReadPosition := (b.mReadPosition + b.mSlotSize) % b.mTotalSize
      mFullSlots := b.mFullSlots - 1 } := by
  obtain ⟨hs, hn, hr, hw, hdr, hdw, hf, hc⟩ := h
  have htot : 0 < b.mTotalSize := Nat.mul_pos hs hn
  have hsd : b.mSlotSize ∣ b.mTotalSize := Dvd.intro _ rfl
  refine ⟨hs, hn, Nat.mod_lt _ htot, hw, dvd_mod_of_dvd_of_dvd (Dvd.dvd.add hdr dvd_rfl) hsd,
    hdw, le_trans (Nat.sub_le _ _) hf, ?_⟩
  show ((b.mReadPosition + b.mSlotSize) % b.mTotalSize +
      (b.mFullSlots - 1) * b.mSlotSize) % b.mTotalSize = b.mWritePosition % b.mTotalSize
  obtain ⟨k, hk⟩ : ∃ k, b.mFullSlots = k + 1 :=
    ⟨b.mFullSlots - 1, (Nat.succ_pred_eq_of_pos (Nat.pos_of_ne_zero hne)).symm⟩
  rw [hk] at hc ⊢
  have harg : b.mReadPosition + b.mSlotSize + k * b.mSlotSize =
      b.mReadPosition + (k + 1) * b.mSlotSize := by ring
  rw [Nat.mod_add_mod, Nat.add_sub_cancel, harg, hc]

/-- `overflowReset` preserves the invariant when invoked at its only call
site, a full buffer. -/
lemma invariant_overflowReset {b : MTRingBuffer} (h : Invariant b)
    (hfull : b.mFullSlots = b.mNumSlots) : Invariant b.overflowReset := by
  obtain ⟨hs, hn, hr, hw, hdr, hdw, hf, hc⟩ := h
  have htot : 0 < b.mTotalSize := Nat.mul_pos hs hn
  have hsd : b.mSlotSize ∣ b.mTotalSize := Dvd.intro _ rfl
  refine ⟨hs, hn, Nat.mod_lt _ htot, hw,
    dvd_mod_of_dvd_of_dvd (Dvd.dvd.add hdr (Dvd.intro_left _ rfl)) hsd, hdw,
    le_trans (Nat.sub_le _ _) hf, ?_⟩
  show ((b.mReadPosition + b.mNumSlots / 2 * b.mSlotSize) % b.mTotalSize +
      (b.mFullSlots - b.mNumSlots / 2) * b.mSlotSize) % b.mTotalSize =
    b.mWritePosition % b.mTotalSize
  have hsplit : b.mNumSlots / 2 + (b.mFullSlots - b.mNumSlots / 2) = b.mFullSlots := by
    have := Nat.div_le_self b.mNumSlots 2
    omega
  have harg : b.mReadPosition + b.mNumSlots / 2 * b.mSlotSize +
      (b.mFullSlots - b.mNumSlots / 2) * b.mSlotSize =
      b.mReadPosition + b.mFullSlots * b.mSlotSize := by
    rw [Nat.add_assoc, ← Nat.add_mul, hsplit]
  rw [Nat.mod_add_mod, harg, hc]

/-- `underrunReset` preserves the invariant (it only touches `mRingBuffer`). -/
lemma invariant_underrunReset {b : MTRingBuffer} (h : Invariant b) :
    Invariant b.underrunReset := h

lemma invariant_insertSlotBlocking {b b' : MTRingBuffer} {sl : Nat → Nat}
    (h : Invariant b) (he : b.insertSlotBlocking sl = some b') : Invariant b' := by
  unfold MTRingBuffer.insertSlotBlocking at he
  split at he
  · exact absurd he (by simp)
  · next hne =>
    obtain rfl : _ = b' := Option.some_injective _ he
    exact invariant_insert_body h hne sl

lemma invariant_readSlotBlocking {b : MTRingBuffer} {out : Nat → Nat}
    {p : (Nat → Nat) × MTRingBuffer}
    (h : Invariant b) (he : b.readSlotBlocking out = some p) : Invariant p.2 := by
  unfold MTRingBuffer.readSlotBlocking at he
  split at he
  · exact absurd he (by simp)
  · next hne =>
    obtain rfl : _ = p := Option.some_injective _ he
    exact invariant_read_body h hne

lemma invariant_insertSlotNonBlocking {b : MTRingBuffer} (sl : Nat → Nat)
    (h : Invariant b) : Invariant (b.insertSlotNonBlocking sl) := by
  unfold MTRingBuffer.insertSlotNonBlocking
  split
  · next hfull => exact invariant_overflowReset h hfull
  · next hne => exact invariant_insert_body h hne sl

lemma invariant_readSlotNonBlocking {b : MTRingBuffer} (out : Nat → Nat)
    (h : Invariant b) : Invariant (b.readSlotNonBlocking out).2 := by
  unfold MTRingBuffer.readSlotNonBlocking
  split
  · exact invariant_underrunReset h
  · next hne => exact invariant_read_body h hne

/-! ### Slot layout helpers for the FIFO development -/

lemma base_mod (s n q : Nat) : q * s % (s * n) = q % n * s := by
  rw [Nat.mul_comm s n]
  exact Nat.mul_mod_mul_right s q n

lemma slotPos_closed_form {b : MTRingBuffer} (h : Invariant b) (j : Nat) :
    slotPos b j = (b.mReadPosition / b.mSlotSize + j) % b.mNumSlots * b.mSlotSize := by
  obtain ⟨hs, hn, hr, hw, hdr, hdw, hf, hc⟩ := h
  obtain ⟨q, hq⟩ := hdr
  unfold slotPos MTRingBuffer.mTotalSize
  rw [hq, Nat.mul_div_cancel_left q hs]
  have harg : b.mSlotSize * q + j * b.mSlotSize = (q + j) * b.mSlotSize := by ring
  rw [harg, base_mod]

lemma slotPos_zero {b : MTRingBuffer} (h : Invariant b) : slotPos b 0 = b.mReadPosition := by
  obtain ⟨hs, hn, hr, _⟩ := h
  unfold slotPos
  simp [Nat.mod_eq_of_lt hr]

lemma slotPos_shift (b : MTRingBuffer) (k : Nat) :
    ((b.mReadPosition + b.mSlotSize) % b.mTotalSize + k * b.mSlotSize) % b.mTotalSize =
      slotPos b (k + 1) := by
  unfold slotPos
  rw [Nat.mod_add_mod]
  congr 1
  ring

lemma write_eq_slotPos_full {b : MTRingBuffer} (h : Invariant b) :
    b.mWritePosition = slotPos b b.mFullSlots := by
  obtain ⟨hs, hn, hr, hw, hdr, hdw, hf, hc⟩ := h
  unfold slotPos
  rw [hc, Nat.mod_eq_of_lt hw]

/-- Byte intervals of two distinct slot indices are disjoint. -/
lemma interval_untouched {s q1 q2 i : Nat} (hi : i < s) (hne : q1 ≠ q2) :
    ¬ (q2 * s ≤ q1 * s + i ∧ q1 * s + i < q2 * s + s) := by
  rintro ⟨h1, h2⟩
  apply hne
  have hq21 : q2 ≤ q1 := by
    by_contra hlt
    push_neg at hlt
    have : (q1 + 1) * s ≤ q2 * s := Nat.mul_le_mul_right s hlt
    have : q1 * s + i < q2 * s := by
      have hstep : q1 * s + i < (q1 + 1) * s := by
        have : (q1 + 1) * s = q1 * s + s := by ring
        omega
      omega
    omega
  have hq12 : q1 ≤ q2 := by
    by_contra hlt
    push_neg at hlt
    have hmul : (q2 + 1) * s ≤ q1 * s := Nat.mul_le_mul_right s hlt
    have : (q2 + 1) * s = q2 * s + s := by ring
    omega
  omega

lemma residue_ne {n a j1 j2 : Nat} (h1 : j1 < n) (h2 : j2 < n) (hne : j1 ≠ j2) :
    (a + j1) % n ≠ (a + j2) % n := by
  intro h
  have h' : Nat.ModEq n (a + j1) (a + j2) := h
  have h'' := Nat.ModEq.add_left_cancel' a h'
  rw [Nat.ModEq, Nat.mod_eq_of_lt h1, Nat.mod_eq_of_lt h2] at h''
  exact hne h''

/-- After the insert body, the bytes of the newly written slot (slot index
`mFullSlots`) read back as the inserted slot. -/
lemma insert_body_ring_new {b : MTRingBuffer} (h : Invariant b) (sl : Nat → Nat)
    {i : Nat} (hi : i < b.mSlotSize) :
    memcpyAt b.mRingBuffer b.mWritePosition sl b.mSlotSize (slotPos b b.mFullSlots + i) =
      sl i := by
  rw [← write_eq_slotPos_full h]
  unfold memcpyAt
  have h1 : b.mWritePosition ≤ b.mWritePosition + i := Nat.le_add_right _ _
  have h2 : b.mWritePosition + i < b.mWritePosition + b.mSlotSize := by omega
  simp [h1, h2]

/-- The insert body does not touch the bytes of any other slot index below
`mNumSlots`. -/
lemma insert_body_ring_old {b : MTRingBuffer} (h : Invariant b) (sl : Nat → Nat)
    {j : Nat} (hj : j < b.mNumSlots) (hjne : j ≠ b.mFullSlots)
    (hfs : b.mFullSlots < b.mNumSlots) {i : Nat} (hi : i < b.mSlotSize) :
    memcpyAt b.mRingBuffer b.mWritePosition sl b.mSlotSize (slotPos b j + i) =
      b.mRingBuffer (slotPos b j + i) := by
  have hq : slotPos b j =
      (b.mReadPosition / b.mSlotSize + j) % b.mNumSlots * b.mSlotSize :=
    slotPos_closed_form h j
  have hwq : b.mWritePosition =
      (b.mReadPosition / b.mSlotSize + b.mFullSlots) % b.mNumSlots * b.mSlotSize := by
    rw [write_eq_slotPos_full h, slotPos_closed_form h]
  have hqne : (b.mReadPosition / b.mSlotSize + j) % b.mNumSlots ≠
      (b.mReadPosition / b.mSlotSize + b.mFullSlots) % b.mNumSlots :=
    residue_ne hj hfs hjne
  unfold memcpyAt
  rw [hq, hwq, if_neg (interval_untouched hi hqne)]

/-- Iterated blocking insert: from any invariant state with enough free
slots, all inserts succeed, positions and sizes behave as expected, existing
slot contents are preserved, and the inserted slots land at consecutive slot
indices after the existing backlog. -/
lemma insertList_spec (L : List (Nat → Nat)) :
    ∀ b : MTRingBuffer, Invariant b → b.mFullSlots + L.length ≤ b.mNumSlots →
    ∃ b1, insertList b L = some b1 ∧ Invariant b1 ∧
      b1.mSlotSize = b.mSlotSize ∧ b1.mNumSlots = b.mNumSlots ∧
      b1.mReadPosition = b.mReadPosition ∧
      b1.mFullSlots = b.mFullSlots + L.length ∧
      (∀ j, j < b.mFullSlots → ∀ i, i < b.mSlotSize →
        b1.mRingBuffer (slotPos b j + i) = b.mRingBuffer (slotPos b j + i)) ∧
      (∀ j, j < L.length → ∀ i, i < b.mSlotSize →
        b1.mRingBuffer (slotPos b (b.mFullSlots + j) + i) = L.getD j (fun _ => 0) i) := by
  induction L with
  | nil =>
    intro b hInv hlen
    exact ⟨b, rfl, hInv, rfl, rfl, rfl, by simp, fun j hj i hi => rfl,
      fun j hj i hi => absurd hj (by simp)⟩
  | cons sl rest ih =>
    intro b hInv hlen
    have hlen1 : b.mFullSlots + (sl :: rest).length = b.mFullSlots + rest.length + 1 := by
      simp
      omega
    have hfs : b.mFullSlots < b.mNumSlots := by
      simp at hlen
      omega
    have hne : b.mFullSlots ≠ b.mNumSlots := Nat.ne_of_lt hfs
    have hInv' : Invariant { b with
        mRingBuffer := memcpyAt b.mRingBuffer b.mWritePosition sl b.mSlotSize
        mWritePosition := (b.mWritePosition + b.mSlotSize) % b.mTotalSize
        mFullSlots := b.mFullSlots + 1 } := invariant_insert_body hInv hne sl
    have hlen' : ({ b with
        mRingBuffer := memcpyAt b.mRingBuffer b.mWritePosition sl b.mSlotSize
        mWritePosition := (b.mWritePosition + b.mSlotSize) % b.mTotalSize
        mFullSlots := b.mFullSlots + 1 } : MTRingBuffer).mFullSlots + rest.length ≤
        ({ b with
        mRingBuffer := memcpyAt b.mRingBuffer b.mWritePosition sl b.mSlotSize
        mWritePosition := (b.mWritePosition + b.mSlotSize) % b.mTotalSize
        mFullSlots := b.mFullSlots + 1 } : MTRingBuffer).mNumSlots := by
      show b.mFullSlots + 1 + rest.length ≤ b.mNumSlots
      simp at hlen
      omega
    obtain ⟨b1, hrun, hInv1, hss, hnn, hrr, hff, hold, hnew⟩ := ih _ hInv' hlen'
    refine ⟨b1, ?_, hInv1, hss, hnn, hrr, ?_, ?_, ?_⟩
    · show insertList b (sl :: rest) = some b1
      unfold insertList MTRingBuffer.insertSlotBlocking
      rw [if_neg hne]
      simpa using hrun
    · show b1.mFullSlots = b.mFullSlots + (sl :: rest).length
      rw [hff]
      simp
      omega
    · intro j hj i hi
      have hstep := hold j (by simpa using Nat.lt_succ_of_lt hj) i hi
      have hframe := insert_body_ring_old hInv sl (lt_trans hj hfs) (Nat.ne_of_lt hj) hfs hi
      exact hstep.trans hframe
    · intro j hj i hi
      match j with
      | 0 =>
        have hstep := hold b.mFullSlots (by simp) i hi
        have hval := insert_body_ring_new hInv sl hi
        simpa using hstep.trans hval
      | j' + 1 =>
        have hj' : j' < rest.length := by simpa using hj
        have hstep := hnew j' hj' i hi
        have harg : b.mFullSlots + (j' + 1) = b.mFullSlots + 1 + j' := by omega
        rw [harg]
        simpa using hstep

/-- Iterated blocking read: from any invariant state with at least `k`
occupied slots, `k` reads succeed, leave the storage bytes untouched, advance
`mReadPosition` by `k` slots, and return the first `k` slot contents in
order. -/
lemma readN_spec (k : Nat) :
    ∀ b : MTRingBuffer, Invariant b → k ≤ b.mFullSlots →
    ∃ outs b2, readN b k = some (outs, b2) ∧ outs.length = k ∧ Invariant b2 ∧
      b2.mSlotSize = b.mSlotSize ∧ b2.mNumSlots = b.mNumSlots ∧
      b2.mRingBuffer = b.mRingBuffer ∧
      b2.mFullSlots = b.mFullSlots - k ∧
      b2.mReadPosition = slotPos b k ∧
      (∀ j, j < k → ∀ i, i < b.mSlotSize →
        outs.getD j (fun _ => 0) i = b.mRingBuffer (slotPos b j + i)) := by
  induction k with
  | zero =>
    intro b hInv hk
    exact ⟨[], b, rfl, rfl, hInv, rfl, rfl, rfl, by omega, (slotPos_zero hInv).symm,
      fun j hj => absurd hj (by omega)⟩
  | succ k ih =>
    intro b hInv hk
    have hne : b.mFullSlots ≠ 0 := by omega
    have hInv' : Invariant { b with
        mLastReadSlot :=
          memcpyAt b.mLastReadSlot 0 (fun i => b.mRingBuffer (b.mReadPosition + i)) b.mSlotSize
        mReadPosition := (b.mReadPosition + b.mSlotSize) % b.mTotalSize
        mFullSlots := b.mFullSlots - 1 } := invariant_read_body hInv hne
    have hk' : k ≤ ({ b with
        mLastReadSlot :=
          memcpyAt b.mLastReadSlot 0 (fun i => b.mRingBuffer (b.mReadPosition + i)) b.mSlotSize
        mReadPosition := (b.mReadPosition + b.mSlotSize) % b.mTotalSize
        mFullSlots := b.mFullSlots - 1 } : MTRingBuffer).mFullSlots := by
      show k ≤ b.mFullSlots - 1
      omega
    obtain ⟨outs', b2, hrun, hlen, hInv2, hss, hnn, hring, hfs2, hrp2, houts⟩ := ih _ hInv' hk'
    refine ⟨memcpyAt (fun _ => 0) 0 (fun i => b.mRingBuffer (b.mReadPosition + i)) b.mSlotSize
        :: outs', b2, ?_, by simpa using hlen, hInv2, hss, hnn, hring, ?_, ?_, ?_⟩
    · show readN b (k + 1) = some _
      unfold readN MTRingBuffer.readSlotBlocking
      rw [if_neg hne]
      simp only [Option.some_bind]
      rw [hrun]
      rfl
    · show b2.mFullSlots = b.mFullSlots - (k + 1)
      rw [hfs2]
      show b.mFullSlots - 1 - k = b.mFullSlots - (k + 1)
      omega
    · show b2.mReadPosition = slotPos b (k + 1)
      rw [hrp2]
      show slotPos { b with
        mLastReadSlot :=
          memcpyAt b.mLastReadSlot 0 (fun i => b.mRingBuffer (b.mReadPosition + i)) b.mSlotSize
        mReadPosition := (b.mReadPosition + b.mSlotSize) % b.mTotalSize
        mFullSlots := b.mFullSlots - 1 } k = slotPos b (k + 1)
      unfold slotPos
      exact slotPos_shift b k
    · intro j hj i hi
      match j with
      | 0 =>
        show memcpyAt (fun _ => 0) 0 (fun i => b.mRingBuffer (b.mReadPosition + i))
            b.mSlotSize i = b.mRingBuffer (slotPos b 0 + i)
        rw [slotPos_zero hInv]
        simp [memcpyAt, hi]
      | j' + 1 =>
        have hj' : j' < k := by omega
        have hstep := houts j' hj' i hi
        have hpos : slotPos { b with
            mLastReadSlot :=
              memcpyAt b.mLastReadSlot 0 (fun i => b.mRingBuffer (b.mReadPosition + i))
                b.mSlotSize
            mReadPosition := (b.mReadPosition + b.mSlotSize) % b.mTotalSize
            mFullSlots := b.mFullSlots - 1 } j' = slotPos b (j' + 1) := by
          unfold slotPos
          exact slotPos_shift b j'
        rw [hpos] at hstep
        simpa using hstep

/-! ### Claim theorems -/

/-- C1: for every positive `slot_size` and `num_slots`, immediately after
construction both byte regions are all zero, `full_slots = num_slots / 2`,
`write_pos = (num_slots / 2) * slot_size`, and `read_pos = 0`. -/
theorem claim1_construct_state (s n : Nat) (hs : 0 < s) (hn : 0 < n) :
    (∀ i, i < (MTRingBuffer.construct s n).mTotalSize →
      (MTRingBuffer.construct s n).mRingBuffer i = 0) ∧
    (∀ i, i < s → (MTRingBuffer.construct s n).mLastReadSlot i = 0) ∧
    (MTRingBuffer.construct s n).mFullSlots = n / 2 ∧
    (MTRingBuffer.construct s n).mWritePosition = n / 2 * s ∧
    (MTRingBuffer.construct s n).mReadPosition = 0 := by
  refine ⟨fun i _ => rfl, fun i _ => rfl, rfl, ?_, rfl⟩
  show n / 2 * s % (s * n) = n / 2 * s
  apply Nat.mod_eq_of_lt
  calc n / 2 * s < n * s := (Nat.mul_lt_mul_right hs).mpr (Nat.div_lt_self hn one_lt_two)
    _ = s * n := Nat.mul_comm n s

theorem claim1_construct_state_witness :
    (∀ i, i < (MTRingBuffer.construct 4 4).mTotalSize →
      (MTRingBuffer.construct 4 4).mRingBuffer i = 0) ∧
    (∀ i, i < 4 → (MTRingBuffer.construct 4 4).mLastReadSlot i = 0) ∧
    (MTRingBuffer.construct 4 4).mFullSlots = 4 / 2 ∧
    (MTRingBuffer.construct 4 4).mWritePosition = 4 / 2 * 4 ∧
    (MTRingBuffer.construct 4 4).mReadPosition = 0 :=
  claim1_construct_state 4 4 (by decide) (by decide)

/-- C2: construction establishes the state invariant (positions in range and
slot-aligned, `0 ≤ full_slots ≤ num_slots`, and
`write_pos - read_pos ≡ full_slots * slot_size (mod total_size)`), and every
operation — blocking insert/read, non-blocking insert/read, including the
overflow and underrun recovery branches — preserves it. -/
theorem claim2_invariant_preserved :
    (∀ s n, 0 < s → 0 < n → Invariant (MTRingBuffer.construct s n)) ∧
    (∀ b b' (sl : Nat → Nat), Invariant b →
      MTRingBuffer.insertSlotBlocking b sl = some b' → Invariant b') ∧
    (∀ b (out : Nat → Nat) p, Invariant b →
      MTRingBuffer.readSlotBlocking b out = some p → Invariant p.2) ∧
    (∀ b (sl : Nat → Nat), Invariant b →
      Invariant (MTRingBuffer.insertSlotNonBlocking b sl)) ∧
    (∀ b (out : Nat → Nat), Invariant b →
      Invariant (MTRingBuffer.readSlotNonBlocking b out).2) :=
  ⟨fun _ _ hs hn => invariant_construct hs hn,
   fun _ _ _ h he => invariant_insertSlotBlocking h he,
   fun _ _ _ h he => invariant_readSlotBlocking h he,
   fun _ sl h => invariant_insertSlotNonBlocking sl h,
   fun _ out h => invariant_readSlotNonBlocking out h⟩

theorem claim2_invariant_preserved_witness :
    Invariant (MTRingBuffer.construct 4 4) ∧
    Invariant (MTRingBuffer.insertSlotNonBlocking (MTRingBuffer.construct 4 4) (fun _ => 9)) ∧
    Invariant (MTRingBuffer.readSlotNonBlocking (MTRingBuffer.construct 4 4) (fun _ => 0)).2 :=
  ⟨claim2_invariant_preserved.1 4 4 (by decide) (by decide),
   claim2_invariant_preserved.2.2.2.1 _ _ (by decide),
   claim2_invariant_preserved.2.2.2.2 _ _ (by decide)⟩

/-- C3: on a full buffer (`full_slots = num_slots`), a non-blocking insert
leaves `mRingBuffer` untouched (the caller's slot is not written), and
afterwards `full_slots = num_slots - num_slots / 2` and `read_pos` has
advanced by `(num_slots / 2) * slot_size` modulo `total_size`. -/
theorem claim3_overflow_recovery (b : MTRingBuffer) (sl : Nat → Nat)
    (hfull : b.mFullSlots = b.mNumSlots) :
    (b.insertSlotNonBlocking sl).mRingBuffer = b.mRingBuffer ∧
    (b.insertSlotNonBlocking sl).mFullSlots = b.mNumSlots - b.mNumSlots / 2 ∧
    (b.insertSlotNonBlocking sl).mReadPosition =
      (b.mReadPosition + b.mNumSlots / 2 * b.mSlotSize) % b.mTotalSize := by
  simp [MTRingBuffer.insertSlotNonBlocking, hfull, MTRingBuffer.overflowReset]

theorem claim3_overflow_recovery_witness :
    (((MTRingBuffer.construct 2 2).insertSlotNonBlocking (fun _ => 5)).insertSlotNonBlocking
        (fun _ => 6)).mRingBuffer =
      ((MTRingBuffer.construct 2 2).insertSlotNonBlocking (fun _ => 5)).mRingBuffer ∧
    (((MTRingBuffer.construct 2 2).insertSlotNonBlocking (fun _ => 5)).insertSlotNonBlocking
        (fun _ => 6)).mFullSlots =
      ((MTRingBuffer.construct 2 2).insertSlotNonBlocking (fun _ => 5)).mNumSlots -
        ((MTRingBuffer.construct 2 2).insertSlotNonBlocking (fun _ => 5)).mNumSlots / 2 ∧
    (((MTRingBuffer.construct 2 2).insertSlotNonBlocking (fun _ => 5)).insertSlotNonBlocking
        (fun _ => 6)).mReadPosition =
      (((MTRingBuffer.construct 2 2).insertSlotNonBlocking (fun _ => 5)).mReadPosition +
        ((MTRingBuffer.construct 2 2).insertSlotNonBlocking (fun _ => 5)).mNumSlots / 2 *
          ((MTRingBuffer.construct 2 2).insertSlotNonBlocking (fun _ => 5)).mSlotSize) %
        ((MTRingBuffer.construct 2 2).insertSlotNonBlocking (fun _ => 5)).mTotalSize :=
  claim3_overflow_recovery ((MTRingBuffer.construct 2 2).insertSlotNonBlocking (fun _ => 5))
    (fun _ => 6) (by decide)

/-- C4: on an empty buffer (`full_slots = 0`), a non-blocking read fills the
caller's buffer with `slot_size` zero bytes, zeroes the whole storage region,
and consumes nothing (`full_slots` stays 0). -/
theorem claim4_underrun_recovery (b : MTRingBuffer) (out : Nat → Nat)
    (hempty : b.mFullSlots = 0) :
    (∀ i, i < b.mSlotSize → (b.readSlotNonBlocking out).1 i = 0) ∧
    (∀ i, i < b.mTotalSize → (b.readSlotNonBlocking out).2.mRingBuffer i = 0) ∧
    (b.readSlotNonBlocking out).2.mFullSlots = 0 := by
  refine ⟨fun i hi => ?_, fun i hi => ?_, ?_⟩
  · simp [MTRingBuffer.readSlotNonBlocking, hempty, MTRingBuffer.setUnderrunReadSlot,
      memsetAt, hi]
  · simp [MTRingBuffer.readSlotNonBlocking, hempty, MTRingBuffer.underrunReset, memsetAt, hi]
  · simp [MTRingBuffer.readSlotNonBlocking, hempty, MTRingBuffer.underrunReset]

theorem claim4_underrun_recovery_witness :
    (∀ i, i < (MTRingBuffer.construct 3 1).mSlotSize →
      ((MTRingBuffer.construct 3 1).readSlotNonBlocking (fun _ => 8)).1 i = 0) ∧
    (∀ i, i < (MTRingBuffer.construct 3 1).mTotalSize →
      ((MTRingBuffer.construct 3 1).readSlotNonBlocking (fun _ => 8)).2.mRingBuffer i = 0) ∧
    ((MTRingBuffer.construct 3 1).readSlotNonBlocking (fun _ => 8)).2.mFullSlots = 0 :=
  claim4_underrun_recovery (MTRingBuffer.construct 3 1) (fun _ => 8) (by decide)

/-- C5 counterexample: the claim fails as stated, because the constructor
pre-seeds the buffer half full.  On `construct 1 2` (one-byte slots, capacity
2, one pre-seeded zero slot), inserting the single distinct slot `7`
(`N = 1 ≤ 2`) and then performing one read returns the pre-seeded zero slot,
not the inserted slot. -/
theorem claim5_fifo_counterexample :
    (MTRingBuffer.construct 1 2).mNumSlots = 2 ∧
    (insertList (MTRingBuffer.construct 1 2) [fun _ => 7]).bind
      (fun b1 => (readN b1 1).map (fun q => q.1.map (fun o => o 0))) = some [0] ∧
    (0 : Nat) ≠ 7 := by
  decide

/-- C5 (amended): starting from an *empty* buffer, for every sequence of
`N ≤ num_slots` slots, inserting them and then performing `N` reads returns
the slots in insertion order (on all `slot_size` meaningful bytes). -/
theorem claim5_fifo_from_empty (b : MTRingBuffer) (L : List (Nat → Nat))
    (hInv : Invariant b) (hempty : b.mFullSlots = 0) (hlen : L.length ≤ b.mNumSlots) :
    ∃ b1 outs b2, insertList b L = some b1 ∧ readN b1 L.length = some (outs, b2) ∧
      outs.length = L.length ∧
      (∀ j, j < L.length → ∀ i, i < b.mSlotSize →
        outs.getD j (fun _ => 0) i = L.getD j (fun _ => 0) i) := by
  obtain ⟨b1, hrun1, hInv1, hss, hnn, hrr, hff, hold, hnew⟩ :=
    insertList_spec L b hInv (by omega)
  have hkle : L.length ≤ b1.mFullSlots := by omega
  obtain ⟨outs, b2, hrun2, hlen2, hInv2, h1, h2, h3, h4, h5, houts⟩ :=
    readN_spec L.length b1 hInv1 hkle
  refine ⟨b1, outs, b2, hrun1, hrun2, hlen2, ?_⟩
  intro j hj i hi
  have hsp : slotPos b1 j = slotPos b j := by
    unfold slotPos MTRingBuffer.mTotalSize
    rw [hss, hnn, hrr]
  have hread := houts j hj i (by rw [hss]; exact hi)
  rw [hsp] at hread
  have hwrite := hnew j hj i hi
  rw [hempty] at hwrite
  simp only [Nat.zero_add] at hwrite
  exact hread.trans hwrite

theorem claim5_fifo_from_empty_witness :
    ∃ b1 outs b2,
      insertList (MTRingBuffer.construct 2 1) ([fun _ => 7] : List (Nat → Nat)) = some b1 ∧
      readN b1 ([fun _ => 7] : List (Nat → Nat)).length = some (outs, b2) ∧
      outs.length = ([fun _ => 7] : List (Nat → Nat)).length ∧
      (∀ j, j < ([fun _ => 7] : List (Nat → Nat)).length →
        ∀ i, i < (MTRingBuffer.construct 2 1).mSlotSize →
          outs.getD j (fun _ => 0) i =
            ([fun _ => 7] : List (Nat → Nat)).getD j (fun _ => 0) i) :=
  claim5_fifo_from_empty (MTRingBuffer.construct 2 1) ([fun _ => 7] : List (Nat → Nat))
    (by decide) (by decide) (by decide)

/-- C6 counterexample: the claim fails as stated.  On `construct 2 2`
(`full_slots = 1 < 2 = num_slots`, so space is available), inserting the slot
`9` and then reading returns byte 0 of the pre-seeded *oldest* slot (zero),
not the slot just inserted. -/
theorem claim6_roundtrip_counterexample :
    (MTRingBuffer.construct 2 2).mFullSlots < (MTRingBuffer.construct 2 2).mNumSlots ∧
    ((MTRingBuffer.construct 2 2).insertSlotBlocking (fun _ => 9)).bind
      (fun b1 => (b1.readSlotBlocking (fun _ => 0)).map (fun p => p.1 0)) = some 0 ∧
    (0 : Nat) ≠ 9 := by
  decide

/-- C6 (amended): for every slot `S` and every *empty* state
(`full_slots = 0`), inserting `S` and then reading (with no intervening
writes) returns exactly `S` on all `slot_size` meaningful bytes. -/
theorem claim6_roundtrip_from_empty (b : MTRingBuffer) (S out : Nat → Nat)
    (hInv : Invariant b) (hempty : b.mFullSlots = 0) :
    ∃ b1 p, b.insertSlotBlocking S = some b1 ∧ b1.readSlotBlocking out = some p ∧
      ∀ i, i < b.mSlotSize → p.1 i = S i := by
  obtain ⟨hs, hn, hr, hw, hdr, hdw, hf, hc⟩ := hInv
  have hrw : b.mReadPosition = b.mWritePosition := by
    rw [hempty] at hc
    simpa [Nat.mod_eq_of_lt hr, Nat.mod_eq_of_lt hw] using hc
  have hne : b.mFullSlots ≠ b.mNumSlots := by omega
  have hins : b.insertSlotBlocking S = some { b with
      mRingBuffer := memcpyAt b.mRingBuffer b.mWritePosition S b.mSlotSize
      mWritePosition := (b.mWritePosition + b.mSlotSize) % b.mTotalSize
      mFullSlots := b.mFullSlots + 1 } := by
    unfold MTRingBuffer.insertSlotBlocking
    rw [if_neg hne]
  have hread : ({ b with
      mRingBuffer := memcpyAt b.mRingBuffer b.mWritePosition S b.mSlotSize
      mWritePosition := (b.mWritePosition + b.mSlotSize) % b.mTotalSize
      mFullSlots := b.mFullSlots + 1 } : MTRingBuffer).readSlotBlocking out = some
      (memcpyAt out 0
        (fun j => memcpyAt b.mRingBuffer b.mWritePosition S b.mSlotSize (b.mReadPosition + j))
        b.mSlotSize,
      { b with
        mRingBuffer := memcpyAt b.mRingBuffer b.mWritePosition S b.mSlotSize
        mWritePosition := (b.mWritePosition + b.mSlotSize) % b.mTotalSize
        mLastReadSlot := memcpyAt b.mLastReadSlot 0
          (fun j => memcpyAt b.mRingBuffer b.mWritePosition S b.mSlotSize (b.mReadPosition + j))
          b.mSlotSize
        mReadPosition := (b.mReadPosition + b.mSlotSize) % b.mTotalSize
        mFullSlots := b.mFullSlots + 1 - 1 }) := by
    unfold MTRingBuffer.readSlotBlocking
    rw [if_neg (by simp)]
    rfl
  refine ⟨_, _, hins, hread, ?_⟩
  intro i hi
  show memcpyAt out 0
      (fun j => memcpyAt b.mRingBuffer b.mWritePosition S b.mSlotSize (b.mReadPosition + j))
      b.mSlotSize i = S i
  simp [memcpyAt, hrw, hi]

theorem claim6_roundtrip_from_empty_witness :
    ∃ b1 p, (MTRingBuffer.construct 4 1).insertSlotBlocking (fun _ => 9) = some b1 ∧
      b1.readSlotBlocking (fun _ => 0) = some p ∧
      ∀ i, i < (MTRingBuffer.construct 4 1).mSlotSize → p.1 i = (fun _ => (9 : Nat)) i :=
  claim6_roundtrip_from_empty (MTRingBuffer.construct 4 1) (fun _ => 9) (fun _ => 0)
    (by decide) (by decide)

/-- C7: after any successful read (blocking, or non-blocking on a non-empty
buffer), `mLastReadSlot` agrees with the returned slot on all `mSlotSize`
bytes; every other operation — blocking or non-blocking insert, and the
non-blocking read underrun branch — leaves `mLastReadSlot` unchanged. -/
theorem claim7_lastReadSlot :
    (∀ b b' (sl : Nat → Nat), MTRingBuffer.insertSlotBlocking b sl = some b' →
      b'.mLastReadSlot = b.mLastReadSlot) ∧
    (∀ b (sl : Nat → Nat),
      (MTRingBuffer.insertSlotNonBlocking b sl).mLastReadSlot = b.mLastReadSlot) ∧
    (∀ b (out : Nat → Nat) p, MTRingBuffer.readSlotBlocking b out = some p →
      ∀ i, i < b.mSlotSize → p.2.mLastReadSlot i = p.1 i) ∧
    (∀ b (out : Nat → Nat), b.mFullSlots = 0 →
      (MTRingBuffer.readSlotNonBlocking b out).2.mLastReadSlot = b.mLastReadSlot) ∧
    (∀ b (out : Nat → Nat), b.mFullSlots ≠ 0 →
      ∀ i, i < b.mSlotSize →
        (MTRingBuffer.readSlotNonBlocking b out).2.mLastReadSlot i =
          (MTRingBuffer.readSlotNonBlocking b out).1 i) := by
  refine ⟨?_, ?_, ?_, ?_, ?_⟩
  · intro b b' sl he
    unfold MTRingBuffer.insertSlotBlocking at he
    split at he
    · exact absurd he (by simp)
    · obtain rfl : _ = b' := Option.some_injective _ he
      rfl
  · intro b sl
    unfold MTRingBuffer.insertSlotNonBlocking
    split <;> rfl
  · intro b out p he i hi
    unfold MTRingBuffer.readSlotBlocking at he
    split at he
    · exact absurd he (by simp)
    · obtain rfl : _ = p := Option.some_injective _ he
      simp [memcpyAt, hi]
  · intro b out hempty
    simp [MTRingBuffer.readSlotNonBlocking, hempty, MTRingBuffer.underrunReset]
  · intro b out hne i hi
    simp [MTRingBuffer.readSlotNonBlocking, hne, memcpyAt, hi]

theorem claim7_lastReadSlot_witness :
    (MTRingBuffer.insertSlotNonBlocking (MTRingBuffer.construct 2 3)
      (fun _ => 7)).mLastReadSlot = (MTRingBuffer.construct 2 3).mLastReadSlot ∧
    (∀ i, i < (MTRingBuffer.construct 2 3).mSlotSize →
      (MTRingBuffer.readSlotNonBlocking (MTRingBuffer.construct 2 3)
          (fun _ => 0)).2.mLastReadSlot i =
        (MTRingBuffer.readSlotNonBlocking (MTRingBuffer.construct 2 3) (fun _ => 0)).1 i) :=
  ⟨claim7_lastReadSlot.2.1 (MTRingBuffer.construct 2 3) (fun _ => 7),
   claim7_lastReadSlot.2.2.2.2 (MTRingBuffer.construct 2 3) (fun _ => 0) (by decide)⟩

/-- C9: a non-blocking read on an empty buffer leaves `read_pos`, `write_pos`,
`full_slots` and `mLastReadSlot` unchanged; it zeroes only the `total_size`
bytes of storage and the first `slot_size` bytes of the caller's output,
leaving all other bytes of both as they were. -/
theorem claim9_underrun_frame (b : MTRingBuffer) (out : Nat → Nat)
    (hempty : b.mFullSlots = 0) :
    (b.readSlotNonBlocking out).2.mReadPosition = b.mReadPosition ∧
    (b.readSlotNonBlocking out).2.mWritePosition = b.mWritePosition ∧
    (b.readSlotNonBlocking out).2.mFullSlots = b.mFullSlots ∧
    (b.readSlotNonBlocking out).2.mLastReadSlot = b.mLastReadSlot ∧
    (b.readSlotNonBlocking out).2.mSlotSize = b.mSlotSize ∧
    (b.readSlotNonBlocking out).2.mNumSlots = b.mNumSlots ∧
    (∀ i, i < b.mTotalSize → (b.readSlotNonBlocking out).2.mRingBuffer i = 0) ∧
    (∀ i, b.mTotalSize ≤ i → (b.readSlotNonBlocking out).2.mRingBuffer i = b.mRingBuffer i) ∧
    (∀ i, i < b.mSlotSize → (b.readSlotNonBlocking out).1 i = 0) ∧
    (∀ i, b.mSlotSize ≤ i → (b.readSlotNonBlocking out).1 i = out i) := by
  refine ⟨?_, ?_, ?_, ?_, ?_, ?_, fun i hi => ?_, fun i hi => ?_, fun i hi => ?_,
    fun i hi => ?_⟩
  · simp [MTRingBuffer.readSlotNonBlocking, hempty, MTRingBuffer.underrunReset]
  · simp [MTRingBuffer.readSlotNonBlocking, hempty, MTRingBuffer.underrunReset]
  · simp [MTRingBuffer.readSlotNonBlocking, hempty, MTRingBuffer.underrunReset]
  · simp [MTRingBuffer.readSlotNonBlocking, hempty, MTRingBuffer.underrunReset]
  · simp [MTRingBuffer.readSlotNonBlocking, hempty, MTRingBuffer.underrunReset]
  · simp [MTRingBuffer.readSlotNonBlocking, hempty, MTRingBuffer.underrunReset]
  · simp [MTRingBuffer.readSlotNonBlocking, hempty, MTRingBuffer.underrunReset, memsetAt, hi]
  · simp [MTRingBuffer.readSlotNonBlocking, hempty, MTRingBuffer.underrunReset, memsetAt,
      Nat.not_lt.mpr hi]
  · simp [MTRingBuffer.readSlotNonBlocking, hempty, MTRingBuffer.setUnderrunReadSlot,
      memsetAt, hi]
  · simp [MTRingBuffer.readSlotNonBlocking, hempty, MTRingBuffer.setUnderrunReadSlot,
      memsetAt, Nat.not_lt.mpr hi]

theorem claim9_underrun_frame_witness :
    (emptyAt4.readSlotNonBlocking (fun _ => 6)).2.mReadPosition = emptyAt4.mReadPosition ∧
    (emptyAt4.readSlotNonBlocking (fun _ => 6)).2.mWritePosition = emptyAt4.mWritePosition ∧
    (emptyAt4.readSlotNonBlocking (fun _ => 6)).2.mFullSlots = emptyAt4.mFullSlots ∧
    (emptyAt4.readSlotNonBlocking (fun _ => 6)).2.mLastReadSlot = emptyAt4.mLastReadSlot ∧
    (emptyAt4.readSlotNonBlocking (fun _ => 6)).2.mSlotSize = emptyAt4.mSlotSize ∧
    (emptyAt4.readSlotNonBlocking (fun _ => 6)).2.mNumSlots = emptyAt4.mNumSlots ∧
    (∀ i, i < emptyAt4.mTotalSize →
      (emptyAt4.readSlotNonBlocking (fun _ => 6)).2.mRingBuffer i = 0) ∧
    (∀ i, emptyAt4.mTotalSize ≤ i →
      (emptyAt4.readSlotNonBlocking (fun _ => 6)).2.mRingBuffer i = emptyAt4.mRingBuffer i) ∧
    (∀ i, i < emptyAt4.mSlotSize → (emptyAt4.readSlotNonBlocking (fun _ => 6)).1 i = 0) ∧
    (∀ i, emptyAt4.mSlotSize ≤ i →
      (emptyAt4.readSlotNonBlocking (fun _ => 6)).1 i = (fun _ => 6) i) :=
  claim9_underrun_frame emptyAt4 (fun _ => 6) (by decide)

/-- C10: with `num_slots = 1`, the overflow recovery advances `read_pos` by
`(1 / 2) * slot_size = 0` and decrements `full_slots` by `1 / 2 = 0`, so a
non-blocking insert on a full one-slot buffer leaves the whole state
unchanged and the buffer stays full. -/
theorem claim10_one_slot_overflow_noop (b : MTRingBuffer) (sl : Nat → Nat)
    (h1 : b.mNumSlots = 1) (hfull : b.mFullSlots = b.mNumSlots)
    (hr : b.mReadPosition < b.mTotalSize) :
    b.insertSlotNonBlocking sl = b ∧
    (b.insertSlotNonBlocking sl).mFullSlots = b.mNumSlots := by
  have h0 : b.mNumSlots / 2 = 0 := by rw [h1]
  have key : b.insertSlotNonBlocking sl = b := by
    unfold MTRingBuffer.insertSlotNonBlocking
    rw [if_pos hfull]
    unfold MTRingBuffer.overflowReset
    rw [h0]
    simp [Nat.mod_eq_of_lt hr]
  exact ⟨key, by rw [key]; exact hfull⟩

theorem claim10_one_slot_overflow_noop_witness :
    ((MTRingBuffer.construct 1 1).insertSlotNonBlocking (fun _ => 3)).insertSlotNonBlocking
        (fun _ => 4) =
      (MTRingBuffer.construct 1 1).insertSlotNonBlocking (fun _ => 3) ∧
    (((MTRingBuffer.construct 1 1).insertSlotNonBlocking (fun _ => 3)).insertSlotNonBlocking
        (fun _ => 4)).mFullSlots =
      ((MTRingBuffer.construct 1 1).insertSlotNonBlocking (fun _ => 3)).mNumSlots :=
  claim10_one_slot_overflow_noop
    ((MTRingBuffer.construct 1 1).insertSlotNonBlocking (fun _ => 3)) (fun _ => 4)
    (by decide) (by decide) (by decide)

end MTRing
